import Mathlib

/-!
# mchat: connection registry, read loop and broadcast fan-out

A shallow embedding of `chat_server.go`.  The server is sequential code around
a handful of calls into code that lives elsewhere (`validateJWT`,
`UnmarshalMessage`, `WriteMessage`, `Storage.CreateMessage`, `time.Now`,
`conn.Read`, `conn.Close`).  Those calls are taken as parameters (`Env`), each
one a function of the history of calls made so far, and every call the server
makes is appended to a history carried by the state, so that theorems can
speak about which calls are made, in which order and with which arguments.

The embedding is sequential: it follows one call of `HandleWSConn`,
`ReadLoop` or `broadcast` from start to end.  A goroutine started by
`broadcast` is recorded where it is started, together with the error its write
returns.  Calls of `fmt.Printf` are left out.
-/

namespace Mchat

/-- A connection handle.  Go compares the `net.Conn` keys of `conns` by
identity, so a handle is represented by a number. -/
abbrev Conn := Nat

/-- An instant, in nanoseconds since the zero time of Go (a `time.Duration` is a
count of nanoseconds too). -/
abbrev Time := Nat

/-- The constant `time.Minute`, in nanoseconds. -/
def Minute : Nat := 60 * 1000000000

/-- The method `Time.Truncate` of the Go package `time`: `t` rounded down to a
multiple of `d` since the zero time; `t` itself when `d <= 0`. -/
def Truncate (t : Time) (d : Nat) : Time :=
  if d = 0 then t else t - t % d

/-- Modelled from the spec: the declaration of `Message` is not in `src/`; the
data model gives it a sender identity, a body text and a timestamp, and
`ReadLoop` names the timestamp field `Datetime`. -/
structure Message where
  Sender : String
  Body : String
  Datetime : Time
deriving DecidableEq, Repr

/-- The claims type returned (and ignored by the chat server) by `validateJWT`;
`CustomClaims` of `json_server.go` without the embedded registered claims. -/
structure CustomClaims where
  Username : String
  Password : String
deriving DecidableEq, Repr

/-- The error value of `conn.Read`: `io.EOF` or anything else. -/
inductive ReadError where
  | EOF
  | other (text : String)
deriving DecidableEq, Repr

/-- What one call `n, err := conn.Read(buf)` returned: `data` is `buf[:n]`. -/
structure ReadResult where
  data : List Nat
  err : Option ReadError
deriving DecidableEq, Repr

/-- The calls that the chat server makes, with arguments and results. -/
inductive Event where
  /-- The call `conn.Close()`. -/
  | close (conn : Conn)
  /-- The assignment `s.conns[conn] = true`. -/
  | register (conn : Conn)
  /-- The call `delete(s.conns, conn)`. -/
  | delete (conn : Conn)
  /-- The call `conn.Read(buf)` and its result. -/
  | read (conn : Conn) (r : ReadResult)
  /-- The call `time.Now()` and its result. -/
  | now (t : Time)
  /-- The call `s.store.CreateMessage(msg)` and the error it returned. -/
  | createMessage (msg : Message) (err : Option String)
  /-- The direct call `WriteMessage(conn, nil)` of `ReadLoop` and its error. -/
  | writeMessage (conn : Conn) (msg : Option Message) (err : Option String)
  /-- A goroutine started by `broadcast` that calls `WriteMessage(conn, msg)`,
  with the error that call returns. -/
  | goWriteMessage (conn : Conn) (msg : Message) (err : Option String)
deriving DecidableEq, Repr

/-- The code outside `chat_server.go` that the chat server calls.  Results may
depend on everything that happened before (the first argument), which covers
any deterministic store, clock, peer or map iteration order. -/
structure Env where
  /-- The header `Sec-WebSocket-Protocol` of the request that opened `conn`. -/
  header : Conn → String
  validateJWT : String → Except String CustomClaims
  UnmarshalMessage : List Nat → Except String Message
  Now : List Event → Time
  CreateMessage : List Event → Message → Option String
  WriteMessage : List Event → Conn → Option Message → Option String
  /-- The order in which `range s.conns` visits the keys: Go leaves it
  unspecified, but every key is visited once. -/
  rangeOrder : List Event → (keys : Finset Conn) →
    { l : List Conn // l.Nodup ∧ ∀ c, c ∈ l ↔ c ∈ keys }

/-- The struct `ChatServer`: `conns` holds the keys of the map
`map[net.Conn]bool` (the only value ever stored is `true`, and the values are
never read).  `store` is `Env.CreateMessage`; `listenAddr` plays no part in
the functions embedded here.  `trace` is the history of calls made so far. -/
structure ChatServer where
  conns : Finset Conn
  trace : List Event
deriving DecidableEq

/-- How a call ended: it returned, or it is waiting in `conn.Read` for input
that the given read results do not contain. -/
inductive Status where
  | returned
  | blocked
deriving DecidableEq, Repr

/-- Append one call to the history. -/
def ChatServer.emit (s : ChatServer) (e : Event) : ChatServer :=
  { s with trace := s.trace ++ [e] }

/-- The body of `for conn := range s.conns` in `broadcast`, over the keys in
the order the iteration yields them: each iteration starts one goroutine that
calls `WriteMessage(conn, msg)`; its error is printed and goes nowhere. -/
def broadcastLoop (env : Env) (msg : Message) : List Conn → ChatServer → ChatServer
  | [], s => s
  | conn :: rest, s =>
    broadcastLoop env msg rest
      (s.emit (.goWriteMessage conn msg (env.WriteMessage s.trace conn (some msg))))

/-- The method `ChatServer.broadcast`. -/
def broadcast (env : Env) (s : ChatServer) (msg : Message) : ChatServer :=
  broadcastLoop env msg (env.rangeOrder s.trace s.conns).val s

/-- The `for` loop of `ReadLoop`, run on the results that the successive calls
of `conn.Read` return. -/
def ReadLoop.loop (env : Env) (conn : Conn) : List ReadResult → ChatServer → ChatServer × Status
  | [], s => (s, .blocked)
  | r :: rest, s =>
    let s := s.emit (.read conn r)
    match r.err with
    | some .EOF => (s, .returned)
    | some (.other _) => (s, .returned)
    | none =>
      match env.UnmarshalMessage r.data with
      | .error _ => (s, .returned)
      | .ok msg =>
        let t := env.Now s.trace
        let s := s.emit (.now t)
        let msg := { msg with Datetime := Truncate t Minute }
        let err := env.CreateMessage s.trace msg
        let s := s.emit (.createMessage msg err)
        let s :=
          match err with
          | some _ => s.emit (.writeMessage conn none (env.WriteMessage s.trace conn none))
          | none => s
        ReadLoop.loop env conn rest (broadcast env s msg)

/-- The deferred function of `ReadLoop`: `conn.Close()`, then
`delete(s.conns, conn)`. -/
def ReadLoop.deferred (conn : Conn) (s : ChatServer) : ChatServer :=
  let s := s.emit (.close conn)
  { conns := s.conns.erase conn, trace := s.trace ++ [.delete conn] }

/-- The method `ChatServer.ReadLoop`: the loop, and the deferred function when
the loop returns. -/
def ReadLoop (env : Env) (s : ChatServer) (conn : Conn) (reads : List ReadResult) :
    ChatServer × Status :=
  match ReadLoop.loop env conn reads s with
  | (s, .returned) => (ReadLoop.deferred conn s, .returned)
  | (s, .blocked) => (s, .blocked)

/-- The method `ChatServer.HandleWSConn`; `reads` are the results that the
calls of `conn.Read` on this connection return. -/
def HandleWSConn (env : Env) (s : ChatServer) (conn : Conn) (reads : List ReadResult) :
    ChatServer × Status :=
  let tokenString := env.header conn
  match env.validateJWT tokenString with
  | .error _ => (s.emit (.close conn), .returned)
  | .ok _ =>
    let s := { (s.emit (.register conn)) with conns := insert conn s.conns }
    ReadLoop env s conn reads

/-- The messages handed to `CreateMessage`, in call order. -/
def appends (evs : List Event) : List Message :=
  evs.filterMap fun ev =>
    match ev with
    | .createMessage m _ => some m
    | _ => none

/-- The connections that the writes started by `broadcast` go to, in starting
order. -/
def goWrites (evs : List Event) : List Conn :=
  evs.filterMap fun ev =>
    match ev with
    | .goWriteMessage c _ _ => some c
    | _ => none

/-- A read result that keeps the loop going: `conn.Read` returned no error
and `UnmarshalMessage` decodes the bytes. -/
def Env.accepts (env : Env) (r : ReadResult) : Bool :=
  match r.err with
  | some _ => false
  | none =>
    match env.UnmarshalMessage r.data with
    | .ok _ => true
    | .error _ => false

/-- In the words of the spec: the messages decoded from the frames that
precede the first read error or decode failure, in receipt order. -/
def decodedFrames (env : Env) : List ReadResult → List Message
  | [] => []
  | r :: rest =>
    match r.err with
    | some _ => []
    | none =>
      match env.UnmarshalMessage r.data with
      | .error _ => []
      | .ok msg => msg :: decodedFrames env rest

/-- The keys of a registry in increasing order: one possible order of
`range s.conns`. -/
def keysList (keys : Finset Conn) : List Conn :=
  (List.range (keys.sup id + 1)).filter (fun c => c ∈ keys)

/-- A concrete environment: connection `0` carries no token, the token
`"token"` is the valid one, an empty frame does not decode, the first byte of
a frame is the time the client claims, the store fails once the history is
longer than five calls, and writes to connection `2` fail. -/
def demoEnv : Env where
  header := fun c => if c = 0 then "" else "token"
  validateJWT := fun t => if t = "token" then .ok ⟨"u", "p"⟩ else .error "invalid"
  UnmarshalMessage := fun d =>
    match d with
    | [] => .error "empty"
    | x :: _ => .ok ⟨"a", "hi", x⟩
  Now := fun tr => 61000000000 + tr.length
  CreateMessage := fun tr _ => if tr.length > 5 then some "db down" else none
  WriteMessage := fun _ c _ => if c = 2 then some "broken pipe" else none
  rangeOrder := fun _ keys =>
    ⟨keysList keys, (List.nodup_range _).filter _, fun c => by
      unfold keysList
      simp only [List.mem_filter, List.mem_range, decide_eq_true_eq, and_iff_right_iff_imp]
      intro h
      exact Nat.lt_succ_of_le (Finset.le_sup (f := id) h)⟩

/-- A server with connections `1` and `2` registered and an empty history. -/
def demoServer : ChatServer := ⟨{1, 2}, []⟩

/-- Two decoding results that differ at most in the time the client put into
the payload (and in the text of the error). -/
def sameButTime : Except String Message → Except String Message → Prop
  | .ok a, .ok b => a.Sender = b.Sender ∧ a.Body = b.Body
  | .error _, .error _ => True
  | _, _ => False

/-- A decoder that reads the same payloads as the one of `demoEnv` but finds
another client time in them. -/
def demoShifted (d : List Nat) : Except String Message :=
  match d with
  | [] => .error "no payload"
  | x :: _ => .ok ⟨"a", "hi", x + 86400000000000⟩

/-! ## Shared lemmas -/

@[simp] theorem appends_nil : appends [] = [] := rfl

@[simp] theorem appends_append (a b : List Event) : appends (a ++ b) = appends a ++ appends b := by
  simp [appends, List.filterMap_append]

@[simp] theorem goWrites_nil : goWrites [] = [] := rfl

@[simp] theorem goWrites_append (a b : List Event) :
    goWrites (a ++ b) = goWrites a ++ goWrites b := by
  simp [goWrites, List.filterMap_append]

/-- What the loop of `broadcast` over a list of keys does: it appends only writes of
`msg`, one per key in the order given, and leaves the registry alone. -/
theorem broadcastLoop_spec (env : Env) (msg : Message) :
    ∀ (l : List Conn) (s : ChatServer), ∃ evs,
      (broadcastLoop env msg l s).trace = s.trace ++ evs ∧
      (broadcastLoop env msg l s).conns = s.conns ∧
      goWrites evs = l ∧
      ∀ ev ∈ evs, ∃ c e, ev = Event.goWriteMessage c msg e := by
  intro l
  induction l with
  | nil => intro s; exact ⟨[], by simp [broadcastLoop], rfl, rfl, by simp⟩
  | cons c rest ih =>
    intro s
    obtain ⟨evs, h1, h2, h3, h4⟩ :=
      ih (s.emit (.goWriteMessage c msg (env.WriteMessage s.trace c (some msg))))
    refine ⟨Event.goWriteMessage c msg (env.WriteMessage s.trace c (some msg)) :: evs, ?_, ?_, ?_, ?_⟩
    · rw [broadcastLoop, h1]; simp [ChatServer.emit]
    · rw [broadcastLoop, h2]; rfl
    · have : goWrites (Event.goWriteMessage c msg (env.WriteMessage s.trace c (some msg)) :: evs)
          = c :: goWrites evs := by simp [goWrites, List.filterMap_cons]
      rw [this, h3]
    · intro ev hev
      rcases List.mem_cons.1 hev with h | h
      · exact ⟨c, _, h⟩
      · exact h4 ev h

/-- The events of one call of `broadcast`. -/
theorem broadcast_spec (env : Env) (s : ChatServer) (msg : Message) : ∃ evs,
    (broadcast env s msg).trace = s.trace ++ evs ∧
    (broadcast env s msg).conns = s.conns ∧
    (∀ ev ∈ evs, ∃ c e, ev = Event.goWriteMessage c msg e) ∧
    (∀ c, (goWrites evs).count c = if c ∈ s.conns then 1 else 0) ∧
    appends evs = [] := by
  obtain ⟨evs, h1, h2, h3, h4⟩ :=
    broadcastLoop_spec env msg (env.rangeOrder s.trace s.conns).val s
  refine ⟨evs, h1, h2, h4, ?_, ?_⟩
  · intro c
    obtain ⟨hnd, hmem⟩ := (env.rangeOrder s.trace s.conns).property
    rw [h3]
    by_cases hc : c ∈ s.conns
    · rw [if_pos hc]
      exact List.count_eq_one_of_mem hnd ((hmem c).2 hc)
    · rw [if_neg hc]
      exact List.count_eq_zero_of_not_mem (fun h => hc ((hmem c).1 h))
  · unfold appends
    rw [List.filterMap_eq_nil_iff]
    intro ev hev
    obtain ⟨c, e, rfl⟩ := h4 ev hev
    rfl

theorem accepts_iff (env : Env) (r : ReadResult) :
    env.accepts r = true ↔ r.err = none ∧ ∃ msg, env.UnmarshalMessage r.data = .ok msg := by
  unfold Env.accepts
  rcases hr : r.err with _ | e
  · rcases hd : env.UnmarshalMessage r.data with e | msg <;> simp
  · simp

/-- One turn of the loop on a frame that decodes: the clock is read, the
stamped message goes to the store, the sender is notified when the store
fails, and `broadcast` is called with the stamped message in both cases. -/
theorem loop_cons_ok (env : Env) (conn : Conn) (r : ReadResult)
    (s : ChatServer) (msg : Message) (hr : r.err = none)
    (hd : env.UnmarshalMessage r.data = .ok msg) (t : Time) (m : Message) (err : Option String)
    (ht : t = env.Now (s.trace ++ [.read conn r]))
    (hm : m = { msg with Datetime := Truncate t Minute })
    (herr : err = env.CreateMessage (s.trace ++ [.read conn r, .now t]) m) :
    ∃ notify, (err = none ∧ notify = [] ∨
        ∃ e e', err = some e ∧ notify = [Event.writeMessage conn none e']) ∧
      ∀ rest, ReadLoop.loop env conn (r :: rest) s =
        ReadLoop.loop env conn rest
          (broadcast env
            ⟨s.conns, s.trace ++ [.read conn r, .now t, .createMessage m err] ++ notify⟩ m) := by
  cases err with
  | none =>
    refine ⟨[], Or.inl ⟨rfl, rfl⟩, fun rest => ?_⟩
    simp [ReadLoop.loop, hr, hd, ChatServer.emit, ← ht, ← hm, ← herr]
  | some e =>
    refine ⟨[.writeMessage conn none (env.WriteMessage
      (s.trace ++ [.read conn r, .now t, .createMessage m (some e)]) conn none)],
      Or.inr ⟨e, _, rfl, rfl⟩, fun rest => ?_⟩
    simp [ReadLoop.loop, hr, hd, ChatServer.emit, ← ht, ← hm, ← herr]

/-- A read result that does not keep the loop going ends it there: nothing
but the read itself happens. -/
theorem loop_cons_stop (env : Env) (conn : Conn) (r : ReadResult) (rest : List ReadResult)
    (s : ChatServer) (hr : env.accepts r = false) :
    ReadLoop.loop env conn (r :: rest) s = (s.emit (.read conn r), .returned) := by
  unfold Env.accepts at hr
  rcases he : r.err with _ | e
  · rcases hd : env.UnmarshalMessage r.data with e | msg
    · simp only [ReadLoop.loop, he, hd]
    · simp [he, hd] at hr
  · cases e <;> simp only [ReadLoop.loop, he]

theorem decodedFrames_cons_stop (env : Env) (r : ReadResult) (rest : List ReadResult)
    (hr : env.accepts r = false) : decodedFrames env (r :: rest) = [] := by
  unfold Env.accepts at hr
  rcases he : r.err with _ | e
  · rcases hd : env.UnmarshalMessage r.data with e | msg
    · simp only [decodedFrames, he, hd]
    · simp [he, hd] at hr
  · simp only [decodedFrames, he]

theorem decodedFrames_cons_ok (env : Env) (r : ReadResult) (rest : List ReadResult)
    (msg : Message) (hr : r.err = none) (hd : env.UnmarshalMessage r.data = .ok msg) :
    decodedFrames env (r :: rest) = msg :: decodedFrames env rest := by
  simp only [decodedFrames, hr, hd]

/-- The loop started on read results that all keep it going is still waiting
for input afterwards, and more input is processed from the state it reached. -/
theorem loop_append (env : Env) (conn : Conn) :
    ∀ (pre : List ReadResult) (s : ChatServer) (rest : List ReadResult),
      (∀ x ∈ pre, env.accepts x = true) →
      ReadLoop.loop env conn (pre ++ rest) s =
        ReadLoop.loop env conn rest (ReadLoop.loop env conn pre s).1 := by
  intro pre
  induction pre with
  | nil => intro s rest _; rfl
  | cons r pre ih =>
    intro s rest h
    obtain ⟨hr, msg, hd⟩ := (accepts_iff env r).1 (h r (List.mem_cons_self _ _))
    obtain ⟨notify, -, hstep⟩ := loop_cons_ok env conn r s msg hr hd _ _ _ rfl rfl rfl
    rw [List.cons_append, hstep, hstep, ih _ _ (fun x hx => h x (List.mem_cons_of_mem _ hx))]

/-- What the loop does to the state, for any read results: it only appends to
the history, never touches the registry, never closes, registers or deletes,
hands the store the decoded messages (with a new `Datetime`) in receipt order,
and returns exactly when some read result does not keep it going. -/
theorem loop_spec (env : Env) (conn : Conn) :
    ∀ (reads : List ReadResult) (s : ChatServer), ∃ evs,
      (ReadLoop.loop env conn reads s).1.trace = s.trace ++ evs ∧
      (ReadLoop.loop env conn reads s).1.conns = s.conns ∧
      (∀ c, Event.close c ∉ evs ∧ Event.delete c ∉ evs ∧ Event.register c ∉ evs) ∧
      List.Forall₂ (fun a d => a = { d with Datetime := a.Datetime })
        (appends evs) (decodedFrames env reads) ∧
      ((ReadLoop.loop env conn reads s).2 = .returned ↔ ∃ r ∈ reads, env.accepts r = false) := by
  intro reads
  induction reads with
  | nil =>
    intro s
    exact ⟨[], by simp [ReadLoop.loop], rfl, by simp, by simp [decodedFrames],
      by simp [ReadLoop.loop]⟩
  | cons r rest ih =>
    intro s
    rcases hacc : env.accepts r with _ | _
    · rw [loop_cons_stop env conn r rest s hacc, decodedFrames_cons_stop env r rest hacc]
      refine ⟨[.read conn r], rfl, rfl, by simp, by simp [appends], ?_⟩
      simp only [true_iff]
      exact ⟨r, List.mem_cons_self _ _, hacc⟩
    · obtain ⟨hr, msg, hd⟩ := (accepts_iff env r).1 hacc
      obtain ⟨t, ht⟩ : ∃ t, t = env.Now (s.trace ++ [.read conn r]) := ⟨_, rfl⟩
      obtain ⟨m, hm⟩ : ∃ m : Message, m = { msg with Datetime := Truncate t Minute } := ⟨_, rfl⟩
      obtain ⟨err, herr⟩ : ∃ err, err = env.CreateMessage (s.trace ++ [.read conn r, .now t]) m :=
        ⟨_, rfl⟩
      obtain ⟨notify, hn, hstep⟩ := loop_cons_ok env conn r s msg hr hd t m err ht hm herr
      rw [hstep rest, decodedFrames_cons_ok env r rest msg hr hd]
      obtain ⟨ws, hw1, hw2, hw3, -, hw5⟩ := broadcast_spec env
        ⟨s.conns, s.trace ++ [.read conn r, .now t, .createMessage m err] ++ notify⟩ m
      obtain ⟨evs, h1, h2, h3, h4, h5⟩ := ih (broadcast env
        ⟨s.conns, s.trace ++ [.read conn r, .now t, .createMessage m err] ++ notify⟩ m)
      have hnotify : appends notify = [] ∧ ∀ c, Event.close c ∉ notify ∧ Event.delete c ∉ notify ∧
          Event.register c ∉ notify := by
        rcases hn with ⟨-, rfl⟩ | ⟨e, e', -, rfl⟩ <;> simp [appends]
      have hws : ∀ c, Event.close c ∉ ws ∧ Event.delete c ∉ ws ∧ Event.register c ∉ ws := by
        intro c
        refine ⟨fun h => ?_, fun h => ?_, fun h => ?_⟩ <;>
          · obtain ⟨_, _, h'⟩ := hw3 _ h
            cases h'
      refine ⟨[.read conn r, .now t, .createMessage m err] ++ notify ++ ws ++ evs, ?_, ?_, ?_, ?_, ?_⟩
      · rw [h1, hw1]; simp
      · rw [h2, hw2]
      · intro c
        have := hnotify.2 c
        have := hws c
        have := h3 c
        simp_all
      · simp only [appends_append, hnotify.1, hw5, List.append_nil]
        have : appends [Event.read conn r, Event.now t, Event.createMessage m err] = [m] := rfl
        rw [this]
        exact List.Forall₂.cons (by rw [hm]) h4
      · rw [h5]
        constructor
        · rintro ⟨x, hx, hxa⟩
          exact ⟨x, List.mem_cons_of_mem _ hx, hxa⟩
        · rintro ⟨x, hx, hxa⟩
          rcases List.mem_cons.1 hx with rfl | hx
          · rw [hacc] at hxa; cases hxa
          · exact ⟨x, hx, hxa⟩

theorem ReadLoop_of_returned (env : Env) (s : ChatServer) (conn : Conn) (reads : List ReadResult)
    (h : (ReadLoop.loop env conn reads s).2 = .returned) :
    ReadLoop env s conn reads =
      (ReadLoop.deferred conn (ReadLoop.loop env conn reads s).1, .returned) := by
  unfold ReadLoop
  rcases hl : ReadLoop.loop env conn reads s with ⟨s1, st⟩
  rw [hl] at h
  cases st
  · rfl
  · cases h

theorem ReadLoop_of_blocked (env : Env) (s : ChatServer) (conn : Conn) (reads : List ReadResult)
    (h : (ReadLoop.loop env conn reads s).2 = .blocked) :
    ReadLoop env s conn reads = ((ReadLoop.loop env conn reads s).1, .blocked) := by
  unfold ReadLoop
  rcases hl : ReadLoop.loop env conn reads s with ⟨s1, st⟩
  rw [hl] at h
  cases st
  · cases h
  · rfl

/-- The history after `ReadLoop` is the history after its loop, followed by
the two calls of the deferred function when the loop returned. -/
theorem ReadLoop_trace (env : Env) (s : ChatServer) (conn : Conn) (reads : List ReadResult) :
    ∃ tail, (ReadLoop env s conn reads).1.trace =
        (ReadLoop.loop env conn reads s).1.trace ++ tail ∧
      (tail = [] ∨ tail = [.close conn, .delete conn]) := by
  rcases hst : (ReadLoop.loop env conn reads s).2 with _ | _
  · rw [ReadLoop_of_returned env s conn reads hst]
    exact ⟨[.close conn, .delete conn], by simp [ReadLoop.deferred, ChatServer.emit], Or.inr rfl⟩
  · rw [ReadLoop_of_blocked env s conn reads hst]
    exact ⟨[], by simp, Or.inl rfl⟩

theorem Minute_pos : 0 < Minute := by decide

theorem Truncate_Minute (t : Time) :
    Minute ∣ Truncate t Minute ∧ Truncate t Minute ≤ t ∧ t < Truncate t Minute + Minute := by
  have hpos := Minute_pos
  have hne : Minute ≠ 0 := Nat.pos_iff_ne_zero.1 hpos
  have hmod := Nat.mod_lt t hpos
  have hle := Nat.mod_le t Minute
  have hdiv := Nat.div_add_mod t Minute
  unfold Truncate
  rw [if_neg hne]
  refine ⟨⟨t / Minute, ?_⟩, Nat.sub_le _ _, ?_⟩
  · exact Nat.sub_eq_of_eq_add hdiv.symm
  · clear hdiv
    generalize t % Minute = x at hmod hle
    have h : @LT.lt Nat _ t (t - x + Minute) := by omega
    exact h

/-- The turn of the loop that handles a frame which decodes, reached after
frames that all decode: the history grows by the read, the clock reading, the
store call, the notification of a store failure, and the events of one call of
`broadcast` with the stamped message. -/
theorem loop_frame (env : Env) (conn : Conn) (pre : List ReadResult) (r : ReadResult)
    (post : List ReadResult) (s : ChatServer) (msg : Message)
    (hpre : ∀ x ∈ pre, env.accepts x = true) (hr : r.err = none)
    (hd : env.UnmarshalMessage r.data = .ok msg) (t : Time) (m : Message) (err : Option String)
    (ht : t = env.Now ((ReadLoop.loop env conn pre s).1.trace ++ [.read conn r]))
    (hm : m = { msg with Datetime := Truncate t Minute })
    (herr : err = env.CreateMessage
      ((ReadLoop.loop env conn pre s).1.trace ++ [.read conn r, .now t]) m) :
    ∃ notify ws after,
      (err = none ∧ notify = [] ∨
        ∃ e e', err = some e ∧ notify = [Event.writeMessage conn none e']) ∧
      (broadcast env ⟨s.conns, (ReadLoop.loop env conn pre s).1.trace ++
          [.read conn r, .now t, .createMessage m err] ++ notify⟩ m).trace =
        (ReadLoop.loop env conn pre s).1.trace ++
          [.read conn r, .now t, .createMessage m err] ++ notify ++ ws ∧
      (∀ ev ∈ ws, ∃ c e, ev = Event.goWriteMessage c m e) ∧
      (∀ c, (goWrites ws).count c = if c ∈ s.conns then 1 else 0) ∧
      (ReadLoop env s conn (pre ++ r :: post)).1.trace =
        (ReadLoop.loop env conn pre s).1.trace ++
          [.read conn r, .now t, .createMessage m err] ++ notify ++ ws ++ after := by
  obtain ⟨-, -, hconns, -⟩ := loop_spec env conn pre s
  obtain ⟨notify, hn, hstep⟩ :=
    loop_cons_ok env conn r (ReadLoop.loop env conn pre s).1 msg hr hd t m err ht hm herr
  rw [hconns] at hstep
  obtain ⟨ws, hw1, -, hw3, hw4, -⟩ := broadcast_spec env
    ⟨s.conns, (ReadLoop.loop env conn pre s).1.trace ++
      [.read conn r, .now t, .createMessage m err] ++ notify⟩ m
  obtain ⟨evs, h1, -⟩ := loop_spec env conn post (broadcast env
    ⟨s.conns, (ReadLoop.loop env conn pre s).1.trace ++
      [.read conn r, .now t, .createMessage m err] ++ notify⟩ m)
  obtain ⟨tail, htail, -⟩ := ReadLoop_trace env s conn (pre ++ r :: post)
  refine ⟨notify, ws, evs ++ tail, hn, hw1, hw3, hw4, ?_⟩
  rw [htail, loop_append env conn pre s (r :: post) hpre, hstep post, h1, hw1]
  simp

theorem broadcastLoop_decoder (env : Env) (u2 : List Nat → Except String Message)
    (msg : Message) : ∀ (l : List Conn) (s : ChatServer),
      broadcastLoop { env with UnmarshalMessage := u2 } msg l s = broadcastLoop env msg l s := by
  intro l
  induction l with
  | nil => intro s; rfl
  | cons c rest ih => intro s; simp only [broadcastLoop, ih]

theorem broadcast_decoder (env : Env) (u2 : List Nat → Except String Message)
    (s : ChatServer) (msg : Message) :
    broadcast { env with UnmarshalMessage := u2 } s msg = broadcast env s msg := by
  unfold broadcast
  exact broadcastLoop_decoder env u2 msg _ s

/-- The loop does the same with two decoders that differ only in the client
time they find in a payload. -/
theorem loop_decoder (env : Env) (u2 : List Nat → Except String Message) (conn : Conn)
    (hu : ∀ data, sameButTime (env.UnmarshalMessage data) (u2 data)) :
    ∀ (reads : List ReadResult) (s : ChatServer),
      ReadLoop.loop { env with UnmarshalMessage := u2 } conn reads s =
        ReadLoop.loop env conn reads s := by
  intro reads
  induction reads with
  | nil => intro s; rfl
  | cons r rest ih =>
    intro s
    rcases he : r.err with _ | e
    · have h := hu r.data
      rcases h1 : env.UnmarshalMessage r.data with e1 | m1 <;>
        rcases h2 : u2 r.data with e2 | m2 <;> rw [h1, h2] at h
      · simp only [ReadLoop.loop, he, h1, h2]
      · exact h.elim
      · exact h.elim
      · obtain ⟨hs, hb⟩ := h
        simp only [ReadLoop.loop, he, h1, h2, broadcast_decoder, ih, hs, hb]
    · cases e <;> simp only [ReadLoop.loop, he]

theorem ReadLoop_decoder (env : Env) (u2 : List Nat → Except String Message) (conn : Conn)
    (hu : ∀ data, sameButTime (env.UnmarshalMessage data) (u2 data))
    (reads : List ReadResult) (s : ChatServer) :
    ReadLoop { env with UnmarshalMessage := u2 } s conn reads = ReadLoop env s conn reads := by
  unfold ReadLoop
  rw [loop_decoder env u2 conn hu]

/-! ## The claims -/

/-- C1: when `validateJWT` rejects the credential of a connection,
`HandleWSConn` returns having made exactly one call, `conn.Close()`: the
registry is the one it was (same members, same size, the connection a member
only if it was one before), no `conn.Read` happens (the read loop is not
started, whatever input the connection holds) and the store is not called. -/
theorem HandleWSConn_rejected (env : Env) (s : ChatServer) (conn : Conn)
    (reads : List ReadResult) (e : String)
    (h : env.validateJWT (env.header conn) = .error e) :
    (HandleWSConn env s conn reads).2 = .returned ∧
    (HandleWSConn env s conn reads).1.trace = s.trace ++ [.close conn] ∧
    (HandleWSConn env s conn reads).1.conns = s.conns ∧
    (HandleWSConn env s conn reads).1.conns.card = s.conns.card ∧
    (conn ∈ (HandleWSConn env s conn reads).1.conns ↔ conn ∈ s.conns) ∧
    HandleWSConn env s conn reads = HandleWSConn env s conn [] := by
  have key : ∀ rs, HandleWSConn env s conn rs = (s.emit (.close conn), .returned) := by
    intro rs
    simp only [HandleWSConn, h]
  rw [key reads, key []]
  exact ⟨rfl, rfl, rfl, rfl, Iff.rfl, rfl⟩

theorem HandleWSConn_rejected_witness :
    demoEnv.validateJWT (demoEnv.header 0) = .error "invalid" ∧
    ((HandleWSConn demoEnv demoServer 0 [⟨[7], none⟩]).2 = .returned ∧
    (HandleWSConn demoEnv demoServer 0 [⟨[7], none⟩]).1.trace = demoServer.trace ++ [.close 0] ∧
    (HandleWSConn demoEnv demoServer 0 [⟨[7], none⟩]).1.conns = demoServer.conns ∧
    (HandleWSConn demoEnv demoServer 0 [⟨[7], none⟩]).1.conns.card = demoServer.conns.card ∧
    (0 ∈ (HandleWSConn demoEnv demoServer 0 [⟨[7], none⟩]).1.conns ↔ 0 ∈ demoServer.conns) ∧
    HandleWSConn demoEnv demoServer 0 [⟨[7], none⟩] = HandleWSConn demoEnv demoServer 0 []) :=
  ⟨rfl, HandleWSConn_rejected demoEnv demoServer 0 [⟨[7], none⟩] "invalid" rfl⟩

/-- C2: when `validateJWT` accepts the credential, `HandleWSConn` is
`ReadLoop` started in the state where the one call made so far is the
insertion of the connection into the registry: at that moment the registry is
the earlier registry plus this connection, every earlier member included. -/
theorem HandleWSConn_accepted (env : Env) (s : ChatServer) (conn : Conn)
    (reads : List ReadResult) (claims : CustomClaims)
    (h : env.validateJWT (env.header conn) = .ok claims) :
    ∃ s1 : ChatServer,
      HandleWSConn env s conn reads = ReadLoop env s1 conn reads ∧
      s1.conns = insert conn s.conns ∧
      s1.trace = s.trace ++ [.register conn] ∧
      conn ∈ s1.conns ∧
      (∀ d ∈ s.conns, d ∈ s1.conns) ∧
      (∀ d ∈ s1.conns, d = conn ∨ d ∈ s.conns) := by
  refine ⟨⟨insert conn s.conns, s.trace ++ [.register conn]⟩, ?_, rfl, rfl, ?_, ?_, ?_⟩
  · simp only [HandleWSConn, h, ChatServer.emit]
  · exact Finset.mem_insert_self _ _
  · intro d hd
    exact Finset.mem_insert_of_mem hd
  · intro d hd
    exact Finset.mem_insert.1 hd

theorem HandleWSConn_accepted_witness :
    demoEnv.validateJWT (demoEnv.header 3) = .ok ⟨"u", "p"⟩ ∧
    ∃ s1 : ChatServer,
      HandleWSConn demoEnv demoServer 3 [⟨[7], none⟩] = ReadLoop demoEnv s1 3 [⟨[7], none⟩] ∧
      s1.conns = insert 3 demoServer.conns ∧
      s1.trace = demoServer.trace ++ [.register 3] ∧
      3 ∈ s1.conns ∧
      (∀ d ∈ demoServer.conns, d ∈ s1.conns) ∧
      (∀ d ∈ s1.conns, d = 3 ∨ d ∈ demoServer.conns) :=
  ⟨rfl, HandleWSConn_accepted demoEnv demoServer 3 [⟨[7], none⟩] ⟨"u", "p"⟩ rfl⟩

/-- C3: when some read result ends the loop (EOF, another read error, or a
frame that does not decode), `ReadLoop` returns, the connection is not in the
registry afterwards, and the calls it made end with `conn.Close()` followed by
`delete(s.conns, conn)`, with no other close or delete before them: each of
the two happens exactly once. -/
theorem ReadLoop_cleanup_once (env : Env) (s : ChatServer) (conn : Conn)
    (reads : List ReadResult) (h : ∃ r ∈ reads, env.accepts r = false) :
    (ReadLoop env s conn reads).2 = .returned ∧
    conn ∉ (ReadLoop env s conn reads).1.conns ∧
    ∃ evs,
      (ReadLoop env s conn reads).1.trace = s.trace ++ (evs ++ [.close conn, .delete conn]) ∧
      (∀ c, Event.close c ∉ evs ∧ Event.delete c ∉ evs) ∧
      List.count (Event.close conn) (evs ++ [.close conn, .delete conn]) = 1 ∧
      List.count (Event.delete conn) (evs ++ [.close conn, .delete conn]) = 1 := by
  obtain ⟨evs, h1, h2, h3, -, h5⟩ := loop_spec env conn reads s
  have hret := h5.2 h
  rw [ReadLoop_of_returned env s conn reads hret]
  refine ⟨rfl, ?_, evs, ?_, fun c => ⟨(h3 c).1, (h3 c).2.1⟩, ?_, ?_⟩
  · simp [ReadLoop.deferred, ChatServer.emit]
  · simp [ReadLoop.deferred, ChatServer.emit, h1]
  · rw [List.count_append, List.count_eq_zero_of_not_mem (h3 conn).1]
    simp
  · rw [List.count_append, List.count_eq_zero_of_not_mem (h3 conn).2.1]
    simp

theorem ReadLoop_cleanup_once_witness :
    (∃ r ∈ [(⟨[7], none⟩ : ReadResult), ⟨[], some .EOF⟩], demoEnv.accepts r = false) ∧
    ((ReadLoop demoEnv demoServer 1 [⟨[7], none⟩, ⟨[], some .EOF⟩]).2 = .returned ∧
    1 ∉ (ReadLoop demoEnv demoServer 1 [⟨[7], none⟩, ⟨[], some .EOF⟩]).1.conns ∧
    ∃ evs,
      (ReadLoop demoEnv demoServer 1 [⟨[7], none⟩, ⟨[], some .EOF⟩]).1.trace =
        demoServer.trace ++ (evs ++ [.close 1, .delete 1]) ∧
      (∀ c, Event.close c ∉ evs ∧ Event.delete c ∉ evs) ∧
      List.count (Event.close 1) (evs ++ [.close 1, .delete 1]) = 1 ∧
      List.count (Event.delete 1) (evs ++ [.close 1, .delete 1]) = 1) :=
  ⟨by decide, ReadLoop_cleanup_once demoEnv demoServer 1 [⟨[7], none⟩, ⟨[], some .EOF⟩]
    (by decide)⟩

/-- C4: one call of `broadcast` starts only writes of the given message, one
for every connection that is in the registry when it is called (the sender is
not singled out) and none for any other connection, whatever errors the writes
return; the registry is left as it was. -/
theorem broadcast_each_member_once (env : Env) (s : ChatServer) (msg : Message) :
    ∃ evs,
      (broadcast env s msg).trace = s.trace ++ evs ∧
      (broadcast env s msg).conns = s.conns ∧
      (∀ ev ∈ evs, ∃ c e, ev = Event.goWriteMessage c msg e) ∧
      (∀ c, (goWrites evs).count c = if c ∈ s.conns then 1 else 0) := by
  obtain ⟨evs, h1, h2, h3, h4, -⟩ := broadcast_spec env s msg
  exact ⟨evs, h1, h2, h3, h4⟩

theorem mem_goWrites (evs : List Event) (c : Conn) :
    c ∈ goWrites evs ↔ ∃ m e, Event.goWriteMessage c m e ∈ evs := by
  unfold goWrites
  rw [List.mem_filterMap]
  constructor
  · rintro ⟨ev, hev, h⟩
    cases ev <;> simp at h
    subst h
    exact ⟨_, _, hev⟩
  · rintro ⟨m, e, h⟩
    exact ⟨_, h, rfl⟩

/-- While every read result so far keeps the loop going, `ReadLoop` is the
loop, waiting for more input. -/
theorem ReadLoop_of_accepts (env : Env) (s : ChatServer) (conn : Conn) (pre : List ReadResult)
    (hpre : ∀ x ∈ pre, env.accepts x = true) :
    ReadLoop env s conn pre = ((ReadLoop.loop env conn pre s).1, .blocked) := by
  obtain ⟨-, -, -, -, -, h5⟩ := loop_spec env conn pre s
  apply ReadLoop_of_blocked
  rcases hst : (ReadLoop.loop env conn pre s).2 with _ | _
  · obtain ⟨x, hx, hxa⟩ := h5.1 hst
    rw [hpre x hx] at hxa
    cases hxa
  · rfl

/-- C5: when `ReadLoop` reaches a frame that decodes (all frames before it
decoded too), it hands the stamped message `m` to the store, and whatever the
store answers (`err` is `none` or an error, in which case the sender gets one
`WriteMessage(conn, nil)` first) the next thing it does is the call
`broadcast(m)`: the events `ws` of that call follow, and they hold a write of
`m` to every member of the registry. -/
theorem ReadLoop_broadcast_not_gated (env : Env) (s : ChatServer) (conn : Conn)
    (pre : List ReadResult) (r : ReadResult) (post : List ReadResult) (msg : Message)
    (hpre : ∀ x ∈ pre, env.accepts x = true) (hr : r.err = none)
    (hd : env.UnmarshalMessage r.data = .ok msg) :
    ∃ t m err notify ws after,
      m = { msg with Datetime := Truncate t Minute } ∧
      err = env.CreateMessage
        ((ReadLoop env s conn pre).1.trace ++ [.read conn r, .now t]) m ∧
      (err = none ∧ notify = [] ∨
        ∃ e e', err = some e ∧ notify = [Event.writeMessage conn none e']) ∧
      (ReadLoop env s conn (pre ++ r :: post)).1.trace =
        (ReadLoop env s conn pre).1.trace ++
          [.read conn r, .now t, .createMessage m err] ++ notify ++ ws ++ after ∧
      (broadcast env ⟨s.conns, (ReadLoop env s conn pre).1.trace ++
          [.read conn r, .now t, .createMessage m err] ++ notify⟩ m).trace =
        (ReadLoop env s conn pre).1.trace ++
          [.read conn r, .now t, .createMessage m err] ++ notify ++ ws ∧
      (∀ d ∈ s.conns, ∃ e, Event.goWriteMessage d m e ∈ ws) := by
  rw [ReadLoop_of_accepts env s conn pre hpre]
  obtain ⟨notify, ws, after, hn, hb, hw3, hw4, htr⟩ :=
    loop_frame env conn pre r post s msg hpre hr hd _ _ _ rfl rfl rfl
  refine ⟨_, _, _, notify, ws, after, rfl, rfl, hn, htr, hb, ?_⟩
  intro d hdm
  have hcount := hw4 d
  rw [if_pos hdm] at hcount
  have hmem : d ∈ goWrites ws := List.count_pos_iff.1 (by omega)
  obtain ⟨m', e, hev⟩ := (mem_goWrites ws d).1 hmem
  obtain ⟨c, e', heq⟩ := hw3 _ hev
  cases heq
  exact ⟨e, hev⟩

theorem ReadLoop_broadcast_not_gated_witness :
    (∀ x ∈ [(⟨[7], none⟩ : ReadResult)], demoEnv.accepts x = true) ∧
    (⟨[8], none⟩ : ReadResult).err = none ∧
    demoEnv.UnmarshalMessage (⟨[8], none⟩ : ReadResult).data = .ok ⟨"a", "hi", 8⟩ ∧
    ∃ t m err notify ws after,
      m = { (⟨"a", "hi", 8⟩ : Message) with Datetime := Truncate t Minute } ∧
      err = demoEnv.CreateMessage
        ((ReadLoop demoEnv demoServer 1 [⟨[7], none⟩]).1.trace ++
          [.read 1 ⟨[8], none⟩, .now t]) m ∧
      (err = none ∧ notify = [] ∨
        ∃ e e', err = some e ∧ notify = [Event.writeMessage 1 none e']) ∧
      (ReadLoop demoEnv demoServer 1 ([⟨[7], none⟩] ++ ⟨[8], none⟩ :: [])).1.trace =
        (ReadLoop demoEnv demoServer 1 [⟨[7], none⟩]).1.trace ++
          [.read 1 ⟨[8], none⟩, .now t, .createMessage m err] ++ notify ++ ws ++ after ∧
      (broadcast demoEnv ⟨demoServer.conns, (ReadLoop demoEnv demoServer 1 [⟨[7], none⟩]).1.trace ++
          [.read 1 ⟨[8], none⟩, .now t, .createMessage m err] ++ notify⟩ m).trace =
        (ReadLoop demoEnv demoServer 1 [⟨[7], none⟩]).1.trace ++
          [.read 1 ⟨[8], none⟩, .now t, .createMessage m err] ++ notify ++ ws ∧
      (∀ d ∈ demoServer.conns, ∃ e, Event.goWriteMessage d m e ∈ ws) :=
  ⟨by decide, rfl, rfl,
    ReadLoop_broadcast_not_gated demoEnv demoServer 1 [⟨[7], none⟩] ⟨[8], none⟩ []
      ⟨"a", "hi", 8⟩ (by decide) rfl rfl⟩

/-- C6: a frame that does not decode, reached after frames that all decode,
ends `ReadLoop`: up to that frame the loop was still running, and the result
is the state reached before the frame plus three calls, the read that returned
the frame, `conn.Close()` and `delete(s.conns, conn)`: no store call and no
write for this frame, and nothing at all for the read results after it, which
do not appear in the result. -/
theorem ReadLoop_decode_failure_fatal (env : Env) (s : ChatServer) (conn : Conn)
    (pre : List ReadResult) (bad : ReadResult) (post : List ReadResult) (e : String)
    (hpre : ∀ x ∈ pre, env.accepts x = true) (hr : bad.err = none)
    (hd : env.UnmarshalMessage bad.data = .error e) :
    (ReadLoop env s conn pre).2 = .blocked ∧
    ReadLoop env s conn (pre ++ bad :: post) =
      (⟨(ReadLoop env s conn pre).1.conns.erase conn,
        (ReadLoop env s conn pre).1.trace ++ [.read conn bad, .close conn, .delete conn]⟩,
        .returned) ∧
    ReadLoop env s conn (pre ++ bad :: post) = ReadLoop env s conn (pre ++ [bad]) := by
  have hbad : env.accepts bad = false := by
    simp only [Env.accepts, hr, hd]
  have key : ∀ rest, ReadLoop env s conn (pre ++ bad :: rest) =
      (⟨(ReadLoop env s conn pre).1.conns.erase conn,
        (ReadLoop env s conn pre).1.trace ++ [.read conn bad, .close conn, .delete conn]⟩,
        .returned) := by
    intro rest
    have hloop : ReadLoop.loop env conn (pre ++ bad :: rest) s =
        ((ReadLoop.loop env conn pre s).1.emit (.read conn bad), .returned) := by
      rw [loop_append env conn pre s (bad :: rest) hpre, loop_cons_stop env conn bad rest _ hbad]
    rw [ReadLoop_of_returned env s conn _ (by rw [hloop]), hloop,
      ReadLoop_of_accepts env s conn pre hpre]
    simp [ReadLoop.deferred, ChatServer.emit]
  refine ⟨?_, key post, ?_⟩
  · rw [ReadLoop_of_accepts env s conn pre hpre]
  · rw [key post, key []]

theorem ReadLoop_decode_failure_fatal_witness :
    (∀ x ∈ [(⟨[7], none⟩ : ReadResult)], demoEnv.accepts x = true) ∧
    (⟨[], none⟩ : ReadResult).err = none ∧
    demoEnv.UnmarshalMessage (⟨[], none⟩ : ReadResult).data = .error "empty" ∧
    ((ReadLoop demoEnv demoServer 1 [⟨[7], none⟩]).2 = .blocked ∧
    ReadLoop demoEnv demoServer 1 ([⟨[7], none⟩] ++ ⟨[], none⟩ :: [⟨[9], none⟩]) =
      (⟨(ReadLoop demoEnv demoServer 1 [⟨[7], none⟩]).1.conns.erase 1,
        (ReadLoop demoEnv demoServer 1 [⟨[7], none⟩]).1.trace ++
          [.read 1 ⟨[], none⟩, .close 1, .delete 1]⟩,
        .returned) ∧
    ReadLoop demoEnv demoServer 1 ([⟨[7], none⟩] ++ ⟨[], none⟩ :: [⟨[9], none⟩]) =
      ReadLoop demoEnv demoServer 1 ([⟨[7], none⟩] ++ [⟨[], none⟩])) :=
  ⟨by decide, rfl, rfl,
    ReadLoop_decode_failure_fatal demoEnv demoServer 1 [⟨[7], none⟩] ⟨[], none⟩ [⟨[9], none⟩]
      "empty" (by decide) rfl rfl⟩

/-- C7: the message that `ReadLoop` hands to the store for a frame that
decodes, and that the `broadcast` call which follows writes to the members of
the registry, is the decoded message with `Datetime` replaced by the clock
reading `t` of this turn truncated to the minute: a multiple of one minute,
not after `t` and less than a minute before it.  The time found in the
payload has no influence: with a decoder that differs only in the time it
finds in each payload, `ReadLoop` makes the same calls with the same
arguments. -/
theorem ReadLoop_timestamp (env : Env) (s : ChatServer) (conn : Conn)
    (pre : List ReadResult) (r : ReadResult) (post : List ReadResult) (msg : Message)
    (u2 : List Nat → Except String Message)
    (hpre : ∀ x ∈ pre, env.accepts x = true) (hr : r.err = none)
    (hd : env.UnmarshalMessage r.data = .ok msg)
    (hu : ∀ data, sameButTime (env.UnmarshalMessage data) (u2 data)) :
    (∃ t m err notify ws after,
      t = env.Now ((ReadLoop env s conn pre).1.trace ++ [.read conn r]) ∧
      (ReadLoop env s conn (pre ++ r :: post)).1.trace =
        (ReadLoop env s conn pre).1.trace ++
          [.read conn r, .now t, .createMessage m err] ++ notify ++ ws ++ after ∧
      (notify = [] ∨ ∃ e, notify = [Event.writeMessage conn none e]) ∧
      (broadcast env ⟨s.conns, (ReadLoop env s conn pre).1.trace ++
          [.read conn r, .now t, .createMessage m err] ++ notify⟩ m).trace =
        (ReadLoop env s conn pre).1.trace ++
          [.read conn r, .now t, .createMessage m err] ++ notify ++ ws ∧
      (∀ ev ∈ ws, ∃ c e, ev = Event.goWriteMessage c m e) ∧
      m.Sender = msg.Sender ∧ m.Body = msg.Body ∧
      m.Datetime = Truncate t Minute ∧
      Minute ∣ m.Datetime ∧ m.Datetime ≤ t ∧ t < m.Datetime + Minute) ∧
    ReadLoop { env with UnmarshalMessage := u2 } s conn (pre ++ r :: post) =
      ReadLoop env s conn (pre ++ r :: post) := by
  refine ⟨?_, ReadLoop_decoder env u2 conn hu _ s⟩
  rw [ReadLoop_of_accepts env s conn pre hpre]
  obtain ⟨notify, ws, after, hn, hb, hw3, -, htr⟩ :=
    loop_frame env conn pre r post s msg hpre hr hd _ _ _ rfl rfl rfl
  obtain ⟨h1, h2, h3⟩ :=
    Truncate_Minute (env.Now ((ReadLoop.loop env conn pre s).1.trace ++ [.read conn r]))
  refine ⟨_, _, _, notify, ws, after, rfl, htr, ?_, hb, hw3, rfl, rfl, rfl, h1, h2, h3⟩
  rcases hn with ⟨-, rfl⟩ | ⟨e, e', -, rfl⟩
  · exact Or.inl rfl
  · exact Or.inr ⟨e', rfl⟩

/-- C8: for any read results and whatever the store answers, the messages
that `ReadLoop` hands to the store are, one for one and in receipt order, the
messages decoded from the frames that precede the first read error or decode
failure, each carrying the `Datetime` the server gave it. -/
theorem ReadLoop_appends_in_order (env : Env) (s : ChatServer) (conn : Conn)
    (reads : List ReadResult) :
    ∃ evs,
      (ReadLoop env s conn reads).1.trace = s.trace ++ evs ∧
      List.Forall₂ (fun a d => a = { d with Datetime := a.Datetime })
        (appends evs) (decodedFrames env reads) ∧
      (appends evs).length = (decodedFrames env reads).length := by
  obtain ⟨evs, h1, -, -, h4, -⟩ := loop_spec env conn reads s
  obtain ⟨tail, ht, htail⟩ := ReadLoop_trace env s conn reads
  have happ : appends (evs ++ tail) = appends evs := by
    rcases htail with rfl | rfl <;> simp [appends]
  refine ⟨evs ++ tail, ?_, ?_, ?_⟩
  · rw [ht, h1, List.append_assoc]
  · rw [happ]; exact h4
  · rw [happ]; exact h4.length_eq

/-- C9: whatever `ReadLoop` does on connection `conn`, and however it ends,
another connection `d` that was in the registry is still in it afterwards
(and no connection other than `conn` is added or removed), no `Close` and no
`delete` of `d` is among the calls made, and any later `broadcast` starts
exactly one write to `d`. -/
theorem ReadLoop_others_untouched (env : Env) (s : ChatServer) (conn d : Conn)
    (reads : List ReadResult) (hne : d ≠ conn) (hmem : d ∈ s.conns) :
    d ∈ (ReadLoop env s conn reads).1.conns ∧
    (∀ c, c ≠ conn → (c ∈ (ReadLoop env s conn reads).1.conns ↔ c ∈ s.conns)) ∧
    (∃ evs, (ReadLoop env s conn reads).1.trace = s.trace ++ evs ∧
      Event.close d ∉ evs ∧ Event.delete d ∉ evs) ∧
    (∀ msg, ∃ ws,
      (broadcast env (ReadLoop env s conn reads).1 msg).trace =
        (ReadLoop env s conn reads).1.trace ++ ws ∧
      (goWrites ws).count d = 1 ∧
      ∃ e, Event.goWriteMessage d msg e ∈ ws) := by
  obtain ⟨evs, h1, h2, h3, -, -⟩ := loop_spec env conn reads s
  have hconns : ∀ c, c ≠ conn → (c ∈ (ReadLoop env s conn reads).1.conns ↔ c ∈ s.conns) := by
    intro c hc
    rcases hst : (ReadLoop.loop env conn reads s).2 with _ | _
    · rw [ReadLoop_of_returned env s conn reads hst]
      simp [ReadLoop.deferred, ChatServer.emit, h2, hc]
    · rw [ReadLoop_of_blocked env s conn reads hst, h2]
  have hd' : d ∈ (ReadLoop env s conn reads).1.conns := (hconns d hne).2 hmem
  refine ⟨hd', hconns, ?_, ?_⟩
  · obtain ⟨tail, ht, htail⟩ := ReadLoop_trace env s conn reads
    refine ⟨evs ++ tail, by rw [ht, h1, List.append_assoc], ?_, ?_⟩
    · rcases htail with rfl | rfl
      · simpa using (h3 d).1
      · simpa [hne] using (h3 d).1
    · rcases htail with rfl | rfl
      · simpa using (h3 d).2.1
      · simpa [hne] using (h3 d).2.1
  · intro msg
    obtain ⟨ws, hw1, -, hw3, hw4, -⟩ := broadcast_spec env (ReadLoop env s conn reads).1 msg
    have hcount := hw4 d
    rw [if_pos hd'] at hcount
    refine ⟨ws, hw1, hcount, ?_⟩
    have hin : d ∈ goWrites ws := List.count_pos_iff.1 (by omega)
    obtain ⟨m', e, hev⟩ := (mem_goWrites ws d).1 hin
    obtain ⟨c, e', heq⟩ := hw3 _ hev
    cases heq
    exact ⟨e, hev⟩

theorem ReadLoop_timestamp_witness :
    (∀ x ∈ [(⟨[7], none⟩ : ReadResult)], demoEnv.accepts x = true) ∧
    (⟨[8], none⟩ : ReadResult).err = none ∧
    demoEnv.UnmarshalMessage (⟨[8], none⟩ : ReadResult).data = .ok ⟨"a", "hi", 8⟩ ∧
    (∀ data, sameButTime (demoEnv.UnmarshalMessage data) (demoShifted data)) ∧
    ((∃ t m err notify ws after,
      t = demoEnv.Now ((ReadLoop demoEnv demoServer 1 [⟨[7], none⟩]).1.trace ++
        [.read 1 ⟨[8], none⟩]) ∧
      (ReadLoop demoEnv demoServer 1 ([⟨[7], none⟩] ++ ⟨[8], none⟩ :: [])).1.trace =
        (ReadLoop demoEnv demoServer 1 [⟨[7], none⟩]).1.trace ++
          [.read 1 ⟨[8], none⟩, .now t, .createMessage m err] ++ notify ++ ws ++ after ∧
      (notify = [] ∨ ∃ e, notify = [Event.writeMessage 1 none e]) ∧
      (broadcast demoEnv ⟨demoServer.conns, (ReadLoop demoEnv demoServer 1 [⟨[7], none⟩]).1.trace ++
          [.read 1 ⟨[8], none⟩, .now t, .createMessage m err] ++ notify⟩ m).trace =
        (ReadLoop demoEnv demoServer 1 [⟨[7], none⟩]).1.trace ++
          [.read 1 ⟨[8], none⟩, .now t, .createMessage m err] ++ notify ++ ws ∧
      (∀ ev ∈ ws, ∃ c e, ev = Event.goWriteMessage c m e) ∧
      m.Sender = (⟨"a", "hi", 8⟩ : Message).Sender ∧ m.Body = (⟨"a", "hi", 8⟩ : Message).Body ∧
      m.Datetime = Truncate t Minute ∧
      Minute ∣ m.Datetime ∧ m.Datetime ≤ t ∧ t < m.Datetime + Minute) ∧
    ReadLoop { demoEnv with UnmarshalMessage := demoShifted } demoServer 1
        ([⟨[7], none⟩] ++ ⟨[8], none⟩ :: []) =
      ReadLoop demoEnv demoServer 1 ([⟨[7], none⟩] ++ ⟨[8], none⟩ :: [])) :=
  ⟨by decide, rfl, rfl,
    fun data => by cases data <;> simp [demoEnv, demoShifted, sameButTime],
    ReadLoop_timestamp demoEnv demoServer 1 [⟨[7], none⟩] ⟨[8], none⟩ [] ⟨"a", "hi", 8⟩
      demoShifted (by decide) rfl rfl
      (fun data => by cases data <;> simp [demoEnv, demoShifted, sameButTime])⟩

theorem ReadLoop_others_untouched_witness :
    (2 : Conn) ≠ 1 ∧ 2 ∈ demoServer.conns ∧
    (2 ∈ (ReadLoop demoEnv demoServer 1 [⟨[7], none⟩, ⟨[], some .EOF⟩]).1.conns ∧
    (∀ c, c ≠ 1 →
      (c ∈ (ReadLoop demoEnv demoServer 1 [⟨[7], none⟩, ⟨[], some .EOF⟩]).1.conns ↔
        c ∈ demoServer.conns)) ∧
    (∃ evs, (ReadLoop demoEnv demoServer 1 [⟨[7], none⟩, ⟨[], some .EOF⟩]).1.trace =
        demoServer.trace ++ evs ∧
      Event.close 2 ∉ evs ∧ Event.delete 2 ∉ evs) ∧
    (∀ msg, ∃ ws,
      (broadcast demoEnv (ReadLoop demoEnv demoServer 1 [⟨[7], none⟩, ⟨[], some .EOF⟩]).1
          msg).trace =
        (ReadLoop demoEnv demoServer 1 [⟨[7], none⟩, ⟨[], some .EOF⟩]).1.trace ++ ws ∧
      (goWrites ws).count 2 = 1 ∧
      ∃ e, Event.goWriteMessage 2 msg e ∈ ws)) :=
  ⟨by decide, by decide,
    ReadLoop_others_untouched demoEnv demoServer 1 2 [⟨[7], none⟩, ⟨[], some .EOF⟩]
      (by decide) (by decide)⟩

/-! ## A run of the model -/

/-- A run of `HandleWSConn` in the concrete environment: connection `3` is
admitted next to `1` and `2`, sends two frames that decode (the store fails on
the second one, the write to connection `2` fails both times), then a frame
that does not decode; the fourth frame is never read. -/
theorem demo_run :
    HandleWSConn demoEnv demoServer 3 [⟨[7], none⟩, ⟨[8], none⟩, ⟨[], none⟩, ⟨[9], none⟩] =
      (⟨{1, 2},
        [.register 3,
         .read 3 ⟨[7], none⟩,
         .now 61000000002,
         .createMessage ⟨"a", "hi", 60000000000⟩ none,
         .goWriteMessage 1 ⟨"a", "hi", 60000000000⟩ none,
         .goWriteMessage 2 ⟨"a", "hi", 60000000000⟩ (some "broken pipe"),
         .goWriteMessage 3 ⟨"a", "hi", 60000000000⟩ none,
         .read 3 ⟨[8], none⟩,
         .now 61000000008,
         .createMessage ⟨"a", "hi", 60000000000⟩ (some "db down"),
         .writeMessage 3 none none,
         .goWriteMessage 1 ⟨"a", "hi", 60000000000⟩ none,
         .goWriteMessage 2 ⟨"a", "hi", 60000000000⟩ (some "broken pipe"),
         .goWriteMessage 3 ⟨"a", "hi", 60000000000⟩ none,
         .read 3 ⟨[], none⟩,
         .close 3,
         .delete 3]⟩, .returned) := by
  decide

end Mchat
